import Mathlib

/-!
Verification of the logitech-g910 userspace driver core.

Shallow embedding of the Rust sources:
- `src/parser.rs`   : `Packet`, `KeyParser` (accept/parse), `ControlParser` (accept/parse)
- `src/keyboard.rs` : `KeyboardInternal` control queue (`queue_control_packet`,
                      `send_next_control`), `set_key_colors`, handler dispatch
- `src/color.rs`    : `ColorPacket` (add / to_control_packet), `FlushPacket`
- `src/keys.rs`     : key categories and wire ids
- `src/utils.rs`    : `UsbWrapper` acquire / drop (kernel-driver reattach)

Machine integers are modelled as `Nat` holding byte values; buffers are
`List Nat`.  Fallible operations return `Except UsbError` or pair their
result with `Option UsbError`.
-/

/-- Errors of the USB layer, named after the libusb variants used by the
source (`UsbError::NotSupported`, `UsbError::InvalidParam`, ...).  The
spec refers to `InvalidParam` by the semantic name `InvalidTarget`. -/
inductive UsbError
  | NoDevice
  | NotSupported
  | InvalidParam
  | Io
  | Busy
deriving DecidableEq, Repr

/-- `src/color.rs` `Color`: three u8 channels. -/
structure Color where
  red : Nat
  green : Nat
  blue : Nat
deriving DecidableEq, Repr

/-- `src/keys.rs` `KeyType`: the per-category wire id. -/
inductive KeyType
  | Standard
  | Gaming
  | Logo
deriving DecidableEq, Repr

/-- Wire id of a key category (`src/keys.rs`: `Standard = 0x0001`,
`Gaming = 0x0004`, `Logo = 0x0010`). -/
def KeyType.id : KeyType → Nat
  | .Standard => 0x0001
  | .Gaming => 0x0004
  | .Logo => 0x0010

/-- `Key`: a category together with the category-local wire byte.  The
`Standard`/`Gaming`/`Logo` variants are from `src/keys.rs`; the `Media`
variant is referenced by `src/keyboard.rs` and `src/parser.rs` but its
enum declaration is not part of the snapshot, so it is modelled from the
spec's data model ("tagged variant over four categories, each carrying a
category-local code"). -/
inductive Key
  | Standard (code : Nat)
  | Gaming (code : Nat)
  | Logo (code : Nat)
  | Media (code : Nat)
deriving DecidableEq, Repr

/-- `src/color.rs` `KeyColor`. -/
structure KeyColor where
  key : Key
  color : Color
deriving DecidableEq, Repr

/-- `src/event.rs` `KeyEvent`. -/
inductive KeyEvent
  | KeyPressed (k : Key)
  | KeyReleased (k : Key)
deriving DecidableEq, Repr

/-- `src/parser.rs` `Packet`: masked endpoint plus buffer. -/
structure Packet where
  endpoint : Nat
  buf : List Nat
deriving DecidableEq, Repr

/-- `Packet::new`: masks the direction bit off the endpoint
(`endpoint_direction & 0x7f`). -/
def Packet.new (endpoint_direction : Nat) (buf : List Nat) : Packet :=
  ⟨endpoint_direction % 0x80, buf⟩

/-- `src/parser.rs` `KeyParser::accept`.  Note the standard-report arm
tests `packet.buf[1] == 0x00` (the reserved byte of a boot keyboard
report), not `buf[0]` (the modifier bitmap). -/
def KeyParser.accept (p : Packet) : Bool :=
  (p.buf.length == 8 && p.endpoint == 1 && p.buf.getD 1 0 == 0x00)
  || (p.buf.length == 21 && p.endpoint == 2 && p.buf.getD 0 0 == 0x01)
  || (p.buf.length == 2 && p.endpoint == 2 && p.buf.getD 0 0 == 0x02)

/-- `src/parser.rs` `ControlParser::accept`. -/
def ControlParser.accept (p : Packet) : Bool :=
  ((p.buf.length == 20 || p.buf.length == 64) && p.endpoint == 0)
  || (p.buf.length == 20 && p.endpoint == 2 && p.buf.getD 0 0 == 0x11)

/-- Claim C2 counterexample.  The claim says a packet is classified as a
standard report exactly when (masked endpoint 1, length 8, buf[0] = 0x00).
The code instead tests buf[1]: a genuine standard report with LeftShift
held (buf[0] = 0x02, buf[1] = 0x00) is accepted although the claim's
condition rejects it, and a packet with buf[0] = 0x00 but buf[1] = 0x01
is rejected although the claim's condition accepts it. -/
theorem keyparser_accept_buf0_cex :
    KeyParser.accept ⟨1, [0x02, 0x00, 0x00, 0x00, 0x00, 0x00, 0x00, 0x00]⟩ = true
    ∧ KeyParser.accept ⟨1, [0x00, 0x01, 0x00, 0x00, 0x00, 0x00, 0x00, 0x00]⟩ = false := by
  exact ⟨rfl, rfl⟩

/-- Claim C2, amended: `KeyParser.accept` recognizes a standard report
exactly when (masked endpoint 1, length 8, byte 1 = 0x00); the rollover
(endpoint 2, length 21, byte 0 = 0x01) and media (endpoint 2, length 2,
byte 0 = 0x02) arms are as the claim states.  The characterization below
uses the explicit list shape, so it is independent of the out-of-bounds
default used inside `accept`. -/
theorem keyparser_accept_characterization (p : Packet) :
    KeyParser.accept p = true ↔
      (p.endpoint = 1 ∧ ∃ b0 rest, p.buf = b0 :: 0x00 :: rest ∧ rest.length = 6)
      ∨ (p.endpoint = 2 ∧ ∃ rest, p.buf = 0x01 :: rest ∧ rest.length = 20)
      ∨ (p.endpoint = 2 ∧ ∃ b1, p.buf = [0x02, b1]) := by
  rcases p with ⟨ep, buf⟩
  simp only [KeyParser.accept, Bool.or_eq_true, Bool.and_eq_true, beq_iff_eq]
  constructor
  · rintro ((⟨⟨hlen, hep⟩, hb1⟩ | ⟨⟨hlen, hep⟩, hb0⟩) | ⟨⟨hlen, hep⟩, hb0⟩)
    · left
      refine ⟨hep, ?_⟩
      match buf, hlen with
      | b0 :: b1 :: rest, hlen =>
        simp only [List.getD_cons_succ, List.getD_cons_zero] at hb1
        subst hb1
        exact ⟨b0, rest, rfl, by simpa using hlen⟩
    · right; left
      refine ⟨hep, ?_⟩
      match buf, hlen with
      | b0 :: rest, hlen =>
        simp only [List.getD_cons_zero] at hb0
        subst hb0
        exact ⟨rest, rfl, by simpa using hlen⟩
    · right; right
      refine ⟨hep, ?_⟩
      obtain ⟨b0, b1, rfl⟩ := List.length_eq_two.mp hlen
      simp only [List.getD_cons_zero] at hb0
      subst hb0
      exact ⟨b1, rfl⟩
  · rintro (⟨hep, b0, rest, hbuf, hrest⟩ | ⟨hep, rest, hbuf, hrest⟩ | ⟨hep, b1, hbuf⟩)
    · subst hbuf
      exact Or.inl (Or.inl ⟨⟨by simp [hrest], hep⟩, rfl⟩)
    · subst hbuf
      exact Or.inl (Or.inr ⟨⟨by simp [hrest], hep⟩, rfl⟩)
    · subst hbuf
      exact Or.inr ⟨⟨rfl, hep⟩, rfl⟩

/-- Claim C10: the shapes accepted by `KeyParser.accept` and
`ControlParser.accept` are disjoint, so each packet is processed by at
most one of the two parsers registered by `KeyboardImpl::new`. -/
theorem parser_accepts_disjoint (p : Packet) :
    (KeyParser.accept p && ControlParser.accept p) = false := by
  rcases p with ⟨ep, buf⟩
  cases hK : KeyParser.accept ⟨ep, buf⟩ with
  | false => simp
  | true =>
    simp only [Bool.true_and]
    cases hC : ControlParser.accept ⟨ep, buf⟩ with
    | false => rfl
    | true =>
      exfalso
      simp only [KeyParser.accept, Bool.or_eq_true, Bool.and_eq_true, beq_iff_eq] at hK
      simp only [ControlParser.accept, Bool.or_eq_true, Bool.and_eq_true, beq_iff_eq] at hC
      rcases hK with (⟨⟨hlen, hep⟩, _⟩ | ⟨⟨hlen, hep⟩, _⟩) | ⟨⟨hlen, hep⟩, _⟩ <;>
        rcases hC with ⟨hlen2 | hlen2, hep2⟩ | ⟨⟨hlen2, hep2⟩, _⟩ <;> omega

/-- The control-queue state of `src/keyboard.rs` `KeyboardInternal`:
the FIFO `control_packet_queue` and the in-flight flag `sending_control`.
The payload type is abstract (`ControlPacket` in the source). -/
structure KeyboardInternal (α : Type) where
  control_packet_queue : List α
  sending_control : Bool
deriving DecidableEq, Repr

/-- `KeyboardInternal::new`: empty queue, not sending. -/
def KeyboardInternal.new (α : Type) : KeyboardInternal α := ⟨[], false⟩

/-- `src/keyboard.rs` `KeyboardInternal::send_next_control`.  Returns the
new state together with the payload submitted to `Handle::send_control`,
if any: an empty queue clears `sending_control`; otherwise the front
payload is popped and submitted with `sending_control` set. -/
def KeyboardInternal.send_next_control : KeyboardInternal α → KeyboardInternal α × Option α
  | ⟨[], _⟩ => (⟨[], false⟩, none)
  | ⟨p :: rest, _⟩ => (⟨rest, true⟩, some p)

/-- `src/keyboard.rs` `KeyboardInternal::queue_control_packet`: push the
payload at the back; if nothing is in flight, call `send_next_control`. -/
def KeyboardInternal.queue_control_packet (st : KeyboardInternal α) (p : α) :
    KeyboardInternal α × Option α :=
  let st1 : KeyboardInternal α := ⟨st.control_packet_queue ++ [p], st.sending_control⟩
  if st1.sending_control = false then st1.send_next_control else (st1, none)

/-- An externally visible event of the control queue: an enqueue (a call
to `queue_control_packet`) or a device acknowledgement (a packet on
endpoint 2 with first byte `0x11`, routed by `ControlParser::parse` to
`send_next_control`). -/
inductive CtrlEvent (α : Type)
  | enqueue (p : α)
  | ack
deriving DecidableEq, Repr

/-- One step of the control queue under a `CtrlEvent`. -/
def ctrlStep (st : KeyboardInternal α) : CtrlEvent α → KeyboardInternal α × Option α
  | .enqueue p => st.queue_control_packet p
  | .ack => st.send_next_control

/-- Run the control queue over a list of events, collecting the payloads
submitted to the USB layer in order. -/
def ctrlRun (st : KeyboardInternal α) : List (CtrlEvent α) → KeyboardInternal α × List α
  | [] => (st, [])
  | e :: es =>
    ((ctrlRun (ctrlStep st e).1 es).1, (ctrlStep st e).2.toList ++ (ctrlRun (ctrlStep st e).1 es).2)

/-- Number of enqueue events in a trace. -/
def numEnq : List (CtrlEvent α) → Nat
  | [] => 0
  | .enqueue _ :: es => numEnq es + 1
  | .ack :: es => numEnq es

/-- Number of acknowledgement events in a trace. -/
def numAck : List (CtrlEvent α) → Nat
  | [] => 0
  | .enqueue _ :: es => numAck es
  | .ack :: es => numAck es + 1

/-- A trace is well-formed from `st` when every acknowledgement arrives
while a control transfer is in flight (`sending_control = true`), i.e.
each ack answers the previously submitted payload. -/
def wfAcks (st : KeyboardInternal α) : List (CtrlEvent α) → Bool
  | [] => true
  | .enqueue p :: es => wfAcks (st.queue_control_packet p).1 es
  | .ack :: es => st.sending_control && wfAcks st.send_next_control.1 es

/-- Numeric value of the in-flight flag. -/
def flightBit (st : KeyboardInternal α) : Nat := cond st.sending_control 1 0

/-- Invariant bookkeeping for `ctrlRun`: when `sending_control` is clear
the queue is empty; queue length plus in-flight bit is conserved by
enqueues and acks; and the number of submissions balances the number of
acks up to the in-flight bit. -/
theorem ctrlRun_inv (es : List (CtrlEvent α)) (st : KeyboardInternal α)
    (hinv : st.sending_control = false → st.control_packet_queue = [])
    (hwf : wfAcks st es = true) :
    ((ctrlRun st es).1.sending_control = false → (ctrlRun st es).1.control_packet_queue = [])
    ∧ (ctrlRun st es).1.control_packet_queue.length + flightBit (ctrlRun st es).1 + numAck es
        = st.control_packet_queue.length + flightBit st + numEnq es
    ∧ (ctrlRun st es).2.length + flightBit st = numAck es + flightBit (ctrlRun st es).1 := by
  induction es generalizing st with
  | nil => exact ⟨hinv, by simp [ctrlRun, numAck, numEnq]⟩
  | cons e es ih =>
    cases e with
    | enqueue p =>
      simp only [wfAcks] at hwf
      cases hs : st.sending_control with
      | true =>
        have hstep : ctrlStep st (.enqueue p)
            = (⟨st.control_packet_queue ++ [p], true⟩, none) := by
          simp [ctrlStep, KeyboardInternal.queue_control_packet, hs]
        have hq : (st.queue_control_packet p).1
            = ⟨st.control_packet_queue ++ [p], true⟩ := by
          simp [KeyboardInternal.queue_control_packet, hs]
        rw [hq] at hwf
        obtain ⟨h1, h2, h3⟩ := ih ⟨st.control_packet_queue ++ [p], true⟩ (by simp) hwf
        refine ⟨?_, ?_, ?_⟩ <;>
          simp only [ctrlRun, hstep, Option.toList_none, List.nil_append] <;>
          simp only [List.length_append, List.length_cons, List.length_nil, flightBit, hs,
            cond_true, numAck, numEnq] at h1 h2 h3 ⊢ <;>
          [exact h1; omega; omega]
      | false =>
        have hempty := hinv hs
        have hstep : ctrlStep st (.enqueue p) = (⟨[], true⟩, some p) := by
          simp [ctrlStep, KeyboardInternal.queue_control_packet, hs, hempty,
            KeyboardInternal.send_next_control]
        have hq : (st.queue_control_packet p).1 = ⟨[], true⟩ := by
          simp [KeyboardInternal.queue_control_packet, hs, hempty,
            KeyboardInternal.send_next_control]
        rw [hq] at hwf
        obtain ⟨h1, h2, h3⟩ := ih ⟨[], true⟩ (by simp) hwf
        refine ⟨?_, ?_, ?_⟩ <;>
          simp only [ctrlRun, hstep, Option.toList_some, List.singleton_append] <;>
          simp only [hempty, List.length_nil, List.length_cons, flightBit, hs,
            cond_true, cond_false, numAck, numEnq] at h1 h2 h3 ⊢ <;>
          [exact h1; omega; omega]
    | ack =>
      simp only [wfAcks, Bool.and_eq_true] at hwf
      obtain ⟨hs, hwf⟩ := hwf
      cases hqe : st.control_packet_queue with
      | nil =>
        have hstep : ctrlStep st .ack = (⟨[], false⟩, none) := by
          cases st with
          | mk q s => cases hqe; simp [ctrlStep, KeyboardInternal.send_next_control]
        have hq : st.send_next_control.1 = ⟨[], false⟩ := by
          have := congrArg Prod.fst hstep
          simpa [ctrlStep] using this
        rw [hq] at hwf
        obtain ⟨h1, h2, h3⟩ := ih ⟨[], false⟩ (by simp) hwf
        refine ⟨?_, ?_, ?_⟩ <;>
          simp only [ctrlRun, hstep, Option.toList_none, List.nil_append] <;>
          simp only [hqe, List.length_nil, flightBit, hs, cond_true, cond_false,
            numAck, numEnq] at h1 h2 h3 ⊢ <;>
          [exact h1; omega; omega]
      | cons p rest =>
        have hstep : ctrlStep st .ack = (⟨rest, true⟩, some p) := by
          cases st with
          | mk q s => cases hqe; simp [ctrlStep, KeyboardInternal.send_next_control]
        have hq : st.send_next_control.1 = ⟨rest, true⟩ := by
          have := congrArg Prod.fst hstep
          simpa [ctrlStep] using this
        rw [hq] at hwf
        obtain ⟨h1, h2, h3⟩ := ih ⟨rest, true⟩ (by simp) hwf
        refine ⟨?_, ?_, ?_⟩ <;>
          simp only [ctrlRun, hstep, Option.toList_some, List.singleton_append] <;>
          simp only [hqe, List.length_cons, flightBit, hs, cond_true,
            numAck, numEnq] at h1 h2 h3 ⊢ <;>
          [exact h1; omega; omega]

/-- Well-formedness splits over concatenation of traces. -/
theorem wfAcks_append (es1 es2 : List (CtrlEvent α)) (st : KeyboardInternal α) :
    wfAcks st (es1 ++ es2) = (wfAcks st es1 && wfAcks (ctrlRun st es1).1 es2) := by
  induction es1 generalizing st with
  | nil => simp [wfAcks, ctrlRun]
  | cons e es ih =>
    cases e with
    | enqueue p => simp [wfAcks, ctrlRun, ctrlStep, ih]
    | ack =>
      cases hs : st.sending_control with
      | true => simp [wfAcks, ctrlRun, ctrlStep, hs, ih]
      | false => simp [wfAcks, ctrlRun, ctrlStep, hs]

/-- The in-flight bit is zero or one. -/
theorem flightBit_le_one (st : KeyboardInternal α) : flightBit st ≤ 1 := by
  unfold flightBit
  cases st.sending_control <;> simp

/-- Claim C1: for every well-formed trace of `queue_control_packet` calls
and endpoint-2 `0x11` acknowledgements, (a) a payload is submitted via
`send_control` only on an enqueue that found no transfer in flight or on
an acknowledgement of the previously submitted payload; (b) at most one
transfer is in flight at any moment: along every prefix the number of
submissions exceeds the number of acknowledgements by at most one; and
(c) after one acknowledgement per enqueued payload, every payload has
been submitted, the queue is empty and `sending_control` is clear. -/
theorem control_queue_ack_gating {α : Type} (es : List (CtrlEvent α))
    (hwf : wfAcks (KeyboardInternal.new α) es = true) :
    (∀ (st : KeyboardInternal α) (ev : CtrlEvent α),
        (ctrlStep st ev).2.isSome = true → st.sending_control = false ∨ ev = CtrlEvent.ack)
    ∧ (∀ es1 es2, es = es1 ++ es2 →
        (ctrlRun (KeyboardInternal.new α) es1).2.length ≤ numAck es1 + 1)
    ∧ (numAck es = numEnq es →
        (ctrlRun (KeyboardInternal.new α) es).1 = KeyboardInternal.new α
        ∧ (ctrlRun (KeyboardInternal.new α) es).2.length = numEnq es) := by
  refine ⟨?_, ?_, ?_⟩
  · intro st ev hsome
    cases ev with
    | enqueue p =>
      cases hs : st.sending_control with
      | false => exact Or.inl rfl
      | true =>
        exfalso
        simp [ctrlStep, KeyboardInternal.queue_control_packet, hs] at hsome
    | ack => exact Or.inr rfl
  · intro es1 es2 heq
    subst heq
    rw [wfAcks_append, Bool.and_eq_true] at hwf
    obtain ⟨hwf1, _⟩ := hwf
    obtain ⟨h1, h2, h3⟩ := ctrlRun_inv es1 (KeyboardInternal.new α) (fun _ => rfl) hwf1
    have hfb0 : flightBit (KeyboardInternal.new α) = 0 := rfl
    have hfb1 := flightBit_le_one (ctrlRun (KeyboardInternal.new α) es1).1
    omega
  · intro hbal
    obtain ⟨h1, h2, h3⟩ := ctrlRun_inv es (KeyboardInternal.new α) (fun _ => rfl) hwf
    have hfb0 : flightBit (KeyboardInternal.new α) = 0 := rfl
    have hlen0 : (KeyboardInternal.new α).control_packet_queue.length = 0 := rfl
    have hfb1 := flightBit_le_one (ctrlRun (KeyboardInternal.new α) es).1
    have hq1 : (ctrlRun (KeyboardInternal.new α) es).1.control_packet_queue.length = 0 := by
      omega
    have hq2 : flightBit (ctrlRun (KeyboardInternal.new α) es).1 = 0 := by omega
    have hqnil : (ctrlRun (KeyboardInternal.new α) es).1.control_packet_queue = [] :=
      List.length_eq_zero.mp hq1
    have hsend : (ctrlRun (KeyboardInternal.new α) es).1.sending_control = false := by
      cases hsc : (ctrlRun (KeyboardInternal.new α) es).1.sending_control with
      | false => rfl
      | true => unfold flightBit at hq2; rw [hsc] at hq2; simp at hq2
    constructor
    · cases hst : (ctrlRun (KeyboardInternal.new α) es).1 with
      | mk q sc =>
        rw [hst] at hqnil hsend
        simp only at hqnil hsend
        rw [hqnil, hsend]
        rfl
    · omega

/-- Witness for C1: the spec's ack-gating scenario — two enqueues, then
two acknowledgements — is well-formed, and running it leaves the queue
empty with `sending_control` clear, having submitted both payloads. -/
theorem control_queue_ack_gating_witness :
    wfAcks (KeyboardInternal.new Nat)
        [CtrlEvent.enqueue 5, CtrlEvent.enqueue 7, CtrlEvent.ack, CtrlEvent.ack] = true
    ∧ (ctrlRun (KeyboardInternal.new Nat)
        [CtrlEvent.enqueue 5, CtrlEvent.enqueue 7, CtrlEvent.ack, CtrlEvent.ack]).1
        = KeyboardInternal.new Nat
    ∧ (ctrlRun (KeyboardInternal.new Nat)
        [CtrlEvent.enqueue 5, CtrlEvent.enqueue 7, CtrlEvent.ack, CtrlEvent.ack]).2.length
        = numEnq [CtrlEvent.enqueue 5, CtrlEvent.enqueue 7, CtrlEvent.ack, CtrlEvent.ack] :=
  ⟨by decide,
   (control_queue_ack_gating
      [CtrlEvent.enqueue 5, CtrlEvent.enqueue 7, CtrlEvent.ack, CtrlEvent.ack]
      (by decide)).2.2 (by decide)⟩

/-- `src/parser.rs` `ControlParser::parse`: empty buffers are ignored;
unknown first bytes on endpoint 0 or 2 are `Err(NotSupported)`; an
endpoint-2 acknowledgement calls `send_next_control`; everything else is
a no-op.  Returns the new queue state and the payload submitted, if any. -/
def ControlParser.parse (p : Packet) (st : KeyboardInternal α) :
    Except UsbError (KeyboardInternal α × Option α) :=
  if p.buf.length = 0 then .ok (st, none)
  else if p.endpoint = 0 ∧ ¬(p.buf.getD 0 0 = 0x11 ∨ p.buf.getD 0 0 = 0x12) then
    .error .NotSupported
  else if p.endpoint = 2 ∧ ¬(p.buf.getD 0 0 = 0x11) then .error .NotSupported
  else if p.endpoint = 2 then .ok st.send_next_control
  else .ok (st, none)

/-- A device acknowledgement packet: endpoint 2, 20 bytes, first byte
`0x11`. -/
def ackPacket : Packet := ⟨2, 0x11 :: List.replicate 19 0⟩

/-- Claim C5 counterexample.  The claim says an acknowledgement processed
with an empty queue and no transfer in flight is reported as an error
(`QueueBroken`) and that `parse` does not return success.  In the code
`send_next_control` merely clears `sending_control` and returns `Ok(())`,
so `ControlParser::parse` on a fresh state (empty queue, not sending)
returns success and submits nothing — the condition is silently
absorbed; no `QueueBroken` error exists anywhere in the source. -/
theorem ack_empty_queue_cex :
    ControlParser.accept ackPacket = true
    ∧ ControlParser.parse ackPacket (KeyboardInternal.new Nat)
        = Except.ok (KeyboardInternal.new Nat, none) := by
  constructor
  · decide
  · rfl

/-- Claim C5, amended: an acknowledgement (endpoint 2, length 20, first
byte `0x11`) processed while the control queue is empty returns success
with `sending_control` cleared and no payload submitted — the condition
is silently absorbed rather than reported. -/
theorem ack_empty_queue_absorbed {α : Type} (st : KeyboardInternal α)
    (h : st.control_packet_queue = []) :
    ControlParser.parse ackPacket st = Except.ok (⟨[], false⟩, none) := by
  cases st with
  | mk q sc =>
    simp only at h
    subst h
    simp [ControlParser.parse, ackPacket, KeyboardInternal.send_next_control]

/-- Witness for the amended C5 at a concrete state. -/
theorem ack_empty_queue_absorbed_witness :
    (KeyboardInternal.mk ([] : List Nat) false).control_packet_queue = []
    ∧ ControlParser.parse ackPacket (KeyboardInternal.mk ([] : List Nat) false)
        = Except.ok (⟨[], false⟩, none) :=
  ⟨rfl, ack_empty_queue_absorbed (KeyboardInternal.mk ([] : List Nat) false) rfl⟩

/-- `src/handle.rs` `ControlPacket`: buffer plus the fixed control-write
parameters (timeout in seconds). -/
structure ControlPacket where
  buf : List Nat
  endpoint_direction : Nat
  request_type : Nat
  request : Nat
  value : Nat
  index : Nat
  timeout_secs : Nat
deriving DecidableEq, Repr

/-- Rust `Vec::resize(n, v)`: truncate to `n` elements or pad with `v`. -/
def vecResize (l : List Nat) (n : Nat) (v : Nat) : List Nat :=
  l.take n ++ List.replicate (n - l.length) v

/-- The per-entry wire bytes written by `ColorPacket::to_control_packet`:
`{ code, r, g, b }` for each appended `(key, color)` pair, in order. -/
def encEntries : List (Nat × Color) → List Nat
  | [] => []
  | (k, c) :: rest => k :: c.red :: c.green :: c.blue :: encEntries rest

/-- `src/color.rs` `ColorPacket::to_control_packet`: magic `0x12FF0F3B`
big-endian, category id big-endian, a zero byte, the entry count as u8,
the entries, then `resize(64, 0)`; wire parameters
`(0x80, 0x21, 9, 0x0212, 0x0001, 10s)`. -/
def ColorPacket.to_control_packet (T : KeyType) (colors : List (Nat × Color)) : ControlPacket :=
  ⟨vecResize ([0x12, 0xff, 0x0f, 0x3b]
      ++ [T.id / 256, T.id % 256] ++ [0x00, colors.length % 256] ++ encEntries colors) 64 0,
   0x80, 0x21, 9, 0x0212, 0x0001, 10⟩

/-- `src/color.rs` `FlushPacket::to_control_packet`: magic `0x11FF0F5B`
big-endian then zeros up to 20 bytes; same wire parameters. -/
def FlushPacket.to_control_packet : ControlPacket :=
  ⟨vecResize [0x11, 0xff, 0x0f, 0x5b] 20 0, 0x80, 0x21, 9, 0x0212, 0x0001, 10⟩

/-- Each entry contributes four bytes. -/
theorem encEntries_length (l : List (Nat × Color)) : (encEntries l).length = 4 * l.length := by
  induction l with
  | nil => rfl
  | cons kc rest ih =>
    cases kc with
    | mk k c => simp [encEntries, ih]; omega

/-- Claim C6: for every category and every batch of at most 14 entries,
the encoded control payload is exactly the 4 magic bytes, the category id
big-endian, a zero byte, the entry count, the entries in append order
(4 bytes each), and zero padding to a total of 64 bytes. -/
theorem color_packet_encoding (T : KeyType) (colors : List (Nat × Color))
    (h : colors.length ≤ 14) :
    (ColorPacket.to_control_packet T colors).buf
      = [0x12, 0xff, 0x0f, 0x3b] ++ [T.id / 256, T.id % 256] ++ [0x00, colors.length]
        ++ encEntries colors ++ List.replicate (56 - 4 * colors.length) 0
    ∧ (ColorPacket.to_control_packet T colors).buf.length = 64 := by
  have hcount : colors.length % 256 = colors.length := Nat.mod_eq_of_lt (by omega)
  have hlen : ([0x12, 0xff, 0x0f, 0x3b]
      ++ [T.id / 256, T.id % 256] ++ [0x00, colors.length % 256] ++ encEntries colors).length
      = 8 + 4 * colors.length := by
    simp [encEntries_length]
    omega
  have hle : ([0x12, 0xff, 0x0f, 0x3b]
      ++ [T.id / 256, T.id % 256] ++ [0x00, colors.length % 256] ++ encEntries colors).length
      ≤ 64 := by omega
  constructor
  · show vecResize _ 64 0 = _
    rw [vecResize, List.take_of_length_le hle, hlen, hcount]
    simp
    omega
  · show (vecResize _ 64 0).length = 64
    rw [vecResize]
    simp only [List.length_append, List.length_take, List.length_replicate]
    omega

/-- Witness for C6 at a concrete two-entry Gaming batch. -/
theorem color_packet_encoding_witness :
    ([( (1 : Nat), Color.mk 10 20 30), ((9 : Nat), Color.mk 0 0 255)] : List (Nat × Color)).length ≤ 14
    ∧ ((ColorPacket.to_control_packet KeyType.Gaming
          [((1 : Nat), Color.mk 10 20 30), ((9 : Nat), Color.mk 0 0 255)]).buf
        = [0x12, 0xff, 0x0f, 0x3b] ++ [KeyType.Gaming.id / 256, KeyType.Gaming.id % 256]
          ++ [0x00, ([((1 : Nat), Color.mk 10 20 30), ((9 : Nat), Color.mk 0 0 255)] : List (Nat × Color)).length]
          ++ encEntries [((1 : Nat), Color.mk 10 20 30), ((9 : Nat), Color.mk 0 0 255)]
          ++ List.replicate (56 - 4 * ([((1 : Nat), Color.mk 10 20 30), ((9 : Nat), Color.mk 0 0 255)] : List (Nat × Color)).length) 0
        ∧ (ColorPacket.to_control_packet KeyType.Gaming
            [((1 : Nat), Color.mk 10 20 30), ((9 : Nat), Color.mk 0 0 255)]).buf.length = 64) :=
  ⟨by decide,
   color_packet_encoding KeyType.Gaming
     [((1 : Nat), Color.mk 10 20 30), ((9 : Nat), Color.mk 0 0 255)] (by decide)⟩

/-- `src/color.rs` `ColorPacket::add`: if the builder already holds 14
entries it is returned for sending and replaced by a fresh builder; the
new entry is then appended to the (possibly fresh) builder.  Returns
`(emitted full batch?, new builder)`. -/
def ColorPacket.add (pkt : List (Nat × Color)) (k : Nat) (c : Color) :
    Option (List (Nat × Color)) × List (Nat × Color) :=
  if pkt.length == 14 then (some pkt, [(k, c)]) else (none, pkt ++ [(k, c)])

/-- A payload enqueued on the control queue by `set_key_colors`, viewed
structurally (its bytes are produced by `ColorPacket.to_control_packet`
respectively `FlushPacket.to_control_packet`). -/
inductive CtrlMsg
  | colorMsg (cat : KeyType) (entries : List (Nat × Color))
  | flushMsg
deriving DecidableEq, Repr

/-- Category and wire code of a key; `none` for media keys, which have no
programmable LED. -/
def Key.toCat : Key → Option (KeyType × Nat)
  | .Standard s => some (.Standard, s)
  | .Gaming g => some (.Gaming, g)
  | .Logo l => some (.Logo, l)
  | .Media _ => none

/-- The loop of `src/keyboard.rs` `KeyboardInternal::set_key_colors`,
threading the three per-category builders and the list of payloads
enqueued so far; after the loop, non-empty builders are enqueued
Standard, Gaming, Logo, then the flush.  A `Media` key aborts with
`Err(UsbError::InvalidParam)`. -/
def set_key_colors_loop : List KeyColor → List (Nat × Color) → List (Nat × Color) →
    List (Nat × Color) → List CtrlMsg → List CtrlMsg × Option UsbError
  | [], sp, gp, lp, out =>
    (out ++ (if sp.length > 0 then [CtrlMsg.colorMsg .Standard sp] else [])
        ++ (if gp.length > 0 then [CtrlMsg.colorMsg .Gaming gp] else [])
        ++ (if lp.length > 0 then [CtrlMsg.colorMsg .Logo lp] else [])
        ++ [CtrlMsg.flushMsg], none)
  | kc :: rest, sp, gp, lp, out =>
    match kc.key with
    | .Standard s =>
      match ColorPacket.add sp s kc.color with
      | (some full, sp1) =>
        set_key_colors_loop rest sp1 gp lp (out ++ [CtrlMsg.colorMsg .Standard full])
      | (none, sp1) => set_key_colors_loop rest sp1 gp lp out
    | .Gaming g =>
      match ColorPacket.add gp g kc.color with
      | (some full, gp1) =>
        set_key_colors_loop rest sp gp1 lp (out ++ [CtrlMsg.colorMsg .Gaming full])
      | (none, gp1) => set_key_colors_loop rest sp gp1 lp out
    | .Logo l =>
      match ColorPacket.add lp l kc.color with
      | (some full, lp1) =>
        set_key_colors_loop rest sp gp lp1 (out ++ [CtrlMsg.colorMsg .Logo full])
      | (none, lp1) => set_key_colors_loop rest sp gp lp1 out
    | .Media _ => (out, some .InvalidParam)

/-- `KeyboardInternal::set_key_colors`: the payloads enqueued during the
call, in order, together with the error returned, if any. -/
def set_key_colors (key_colors : List KeyColor) : List CtrlMsg × Option UsbError :=
  set_key_colors_loop key_colors [] [] [] []

/-- True when no key in the list is a media key. -/
def noMedia (cs : List KeyColor) : Bool :=
  cs.all fun kc => match kc.key with
    | .Media _ => false
    | _ => true

/-- True when some key in the list is a media key. -/
def containsMedia (cs : List KeyColor) : Bool :=
  cs.any fun kc => match kc.key with
    | .Media _ => true
    | _ => false

/-- Concatenated entries of all batches of one category, in emission
order. -/
def entriesOfMsgs (cat : KeyType) (msgs : List CtrlMsg) : List (Nat × Color) :=
  (msgs.filterMap fun m => match m with
    | .colorMsg c es => if c = cat then some es else none
    | .flushMsg => none).flatten

/-- Entries of one category contributed by the input list, in input
order. -/
def inputEntries (cat : KeyType) (cs : List KeyColor) : List (Nat × Color) :=
  cs.filterMap fun kc => match kc.key.toCat with
    | some (c, code) => if c = cat then some (code, kc.color) else none
    | none => none

/-- The builder a category selects among the three accumulators. -/
def catSel : KeyType → List (Nat × Color) → List (Nat × Color) → List (Nat × Color) →
    List (Nat × Color)
  | .Standard, sp, _, _ => sp
  | .Gaming, _, gp, _ => gp
  | .Logo, _, _, lp => lp

theorem entriesOfMsgs_append (cat : KeyType) (a b : List CtrlMsg) :
    entriesOfMsgs cat (a ++ b) = entriesOfMsgs cat a ++ entriesOfMsgs cat b := by
  simp [entriesOfMsgs, List.filterMap_append]

theorem entriesOfMsgs_colorMsg (cat c : KeyType) (es : List (Nat × Color)) :
    entriesOfMsgs cat [CtrlMsg.colorMsg c es] = if c = cat then es else [] := by
  by_cases h : c = cat <;> simp [entriesOfMsgs, h]

theorem entriesOfMsgs_flush (cat : KeyType) :
    entriesOfMsgs cat [CtrlMsg.flushMsg] = [] := by
  simp [entriesOfMsgs]

theorem entriesOfMsgs_optEmit (cat c : KeyType) (l : List (Nat × Color)) :
    entriesOfMsgs cat (if l.length > 0 then [CtrlMsg.colorMsg c l] else [])
      = if c = cat then l else [] := by
  by_cases h : l.length > 0
  · simp only [h, if_true, entriesOfMsgs_colorMsg]
  · have hl : l = [] := List.length_eq_zero.mp (by omega)
    subst hl
    simp [entriesOfMsgs]

/-- Every run of the loop over a media-free input succeeds and produces
the payloads enqueued so far, some color batches, and a final flush. -/
theorem set_key_colors_loop_shape (cs : List KeyColor) :
    ∀ sp gp lp out, noMedia cs = true →
    ∃ mids, set_key_colors_loop cs sp gp lp out = (out ++ mids ++ [CtrlMsg.flushMsg], none)
      ∧ ∀ m ∈ mids, m ≠ CtrlMsg.flushMsg := by
  induction cs with
  | nil =>
    intro sp gp lp out _
    refine ⟨(if sp.length > 0 then [CtrlMsg.colorMsg .Standard sp] else [])
      ++ (if gp.length > 0 then [CtrlMsg.colorMsg .Gaming gp] else [])
      ++ (if lp.length > 0 then [CtrlMsg.colorMsg .Logo lp] else []), ?_, ?_⟩
    · simp [set_key_colors_loop, List.append_assoc]
    · intro m hm
      simp only [List.mem_append] at hm
      rcases hm with (hm | hm) | hm <;> (split at hm <;> simp at hm) <;> simp [hm]
  | cons kc rest ih =>
    intro sp gp lp out hnm
    have hnm2 : noMedia rest = true := by
      simp only [noMedia, List.all_cons, Bool.and_eq_true] at hnm
      exact hnm.2
    cases hk : kc.key with
    | Media m =>
      exfalso
      simp only [noMedia, List.all_cons, Bool.and_eq_true, hk] at hnm
      exact absurd hnm.1 (by decide)
    | Standard s =>
      by_cases h14 : sp.length = 14
      · have hadd : ColorPacket.add sp s kc.color = (some sp, [(s, kc.color)]) := by
          simp [ColorPacket.add, h14]
        obtain ⟨mids, heq, hmem⟩ :=
          ih [(s, kc.color)] gp lp (out ++ [CtrlMsg.colorMsg .Standard sp]) hnm2
        refine ⟨CtrlMsg.colorMsg .Standard sp :: mids, ?_, ?_⟩
        · simp only [set_key_colors_loop, hk, hadd, heq]
          simp
        · intro m hm
          rcases List.mem_cons.mp hm with hm | hm
          · simp [hm]
          · exact hmem m hm
      · have hadd : ColorPacket.add sp s kc.color = (none, sp ++ [(s, kc.color)]) := by
          simp [ColorPacket.add, h14]
        obtain ⟨mids, heq, hmem⟩ := ih (sp ++ [(s, kc.color)]) gp lp out hnm2
        exact ⟨mids, by simp only [set_key_colors_loop, hk, hadd, heq], hmem⟩
    | Gaming g =>
      by_cases h14 : gp.length = 14
      · have hadd : ColorPacket.add gp g kc.color = (some gp, [(g, kc.color)]) := by
          simp [ColorPacket.add, h14]
        obtain ⟨mids, heq, hmem⟩ :=
          ih sp [(g, kc.color)] lp (out ++ [CtrlMsg.colorMsg .Gaming gp]) hnm2
        refine ⟨CtrlMsg.colorMsg .Gaming gp :: mids, ?_, ?_⟩
        · simp only [set_key_colors_loop, hk, hadd, heq]
          simp
        · intro m hm
          rcases List.mem_cons.mp hm with hm | hm
          · simp [hm]
          · exact hmem m hm
      · have hadd : ColorPacket.add gp g kc.color = (none, gp ++ [(g, kc.color)]) := by
          simp [ColorPacket.add, h14]
        obtain ⟨mids, heq, hmem⟩ := ih sp (gp ++ [(g, kc.color)]) lp out hnm2
        exact ⟨mids, by simp only [set_key_colors_loop, hk, hadd, heq], hmem⟩
    | Logo l =>
      by_cases h14 : lp.length = 14
      · have hadd : ColorPacket.add lp l kc.color = (some lp, [(l, kc.color)]) := by
          simp [ColorPacket.add, h14]
        obtain ⟨mids, heq, hmem⟩ :=
          ih sp gp [(l, kc.color)] (out ++ [CtrlMsg.colorMsg .Logo lp]) hnm2
        refine ⟨CtrlMsg.colorMsg .Logo lp :: mids, ?_, ?_⟩
        · simp only [set_key_colors_loop, hk, hadd, heq]
          simp
        · intro m hm
          rcases List.mem_cons.mp hm with hm | hm
          · simp [hm]
          · exact hmem m hm
      · have hadd : ColorPacket.add lp l kc.color = (none, lp ++ [(l, kc.color)]) := by
          simp [ColorPacket.add, h14]
        obtain ⟨mids, heq, hmem⟩ := ih sp gp (lp ++ [(l, kc.color)]) out hnm2
        exact ⟨mids, by simp only [set_key_colors_loop, hk, hadd, heq], hmem⟩

/-- The batches of each category emitted by the loop carry, concatenated,
exactly the pending builder of that category followed by that category's
input entries, in order. -/
theorem set_key_colors_loop_entries (cs : List KeyColor) :
    ∀ sp gp lp out cat, noMedia cs = true →
    entriesOfMsgs cat (set_key_colors_loop cs sp gp lp out).1
      = entriesOfMsgs cat out ++ catSel cat sp gp lp ++ inputEntries cat cs := by
  induction cs with
  | nil =>
    intro sp gp lp out cat _
    cases cat <;>
      simp [set_key_colors_loop, entriesOfMsgs_append, entriesOfMsgs_optEmit,
        entriesOfMsgs_flush, catSel, inputEntries]
  | cons kc rest ih =>
    intro sp gp lp out cat hnm
    have hnm2 : noMedia rest = true := by
      simp only [noMedia, List.all_cons, Bool.and_eq_true] at hnm
      exact hnm.2
    cases hk : kc.key with
    | Media m =>
      exfalso
      simp only [noMedia, List.all_cons, Bool.and_eq_true, hk] at hnm
      exact absurd hnm.1 (by decide)
    | Standard s =>
      by_cases h14 : sp.length = 14
      · have hadd : ColorPacket.add sp s kc.color = (some sp, [(s, kc.color)]) := by
          simp [ColorPacket.add, h14]
        have := ih [(s, kc.color)] gp lp (out ++ [CtrlMsg.colorMsg .Standard sp]) cat hnm2
        simp only [set_key_colors_loop, hk, hadd, this, entriesOfMsgs_append,
          entriesOfMsgs_colorMsg]
        cases cat <;>
          simp [catSel, inputEntries, Key.toCat, List.filterMap_cons, hk]
      · have hadd : ColorPacket.add sp s kc.color = (none, sp ++ [(s, kc.color)]) := by
          simp [ColorPacket.add, h14]
        have := ih (sp ++ [(s, kc.color)]) gp lp out cat hnm2
        simp only [set_key_colors_loop, hk, hadd, this]
        cases cat <;>
          simp [catSel, inputEntries, Key.toCat, List.filterMap_cons, hk]
    | Gaming g =>
      by_cases h14 : gp.length = 14
      · have hadd : ColorPacket.add gp g kc.color = (some gp, [(g, kc.color)]) := by
          simp [ColorPacket.add, h14]
        have := ih sp [(g, kc.color)] lp (out ++ [CtrlMsg.colorMsg .Gaming gp]) cat hnm2
        simp only [set_key_colors_loop, hk, hadd, this, entriesOfMsgs_append,
          entriesOfMsgs_colorMsg]
        cases cat <;>
          simp [catSel, inputEntries, Key.toCat, List.filterMap_cons, hk]
      · have hadd : ColorPacket.add gp g kc.color = (none, gp ++ [(g, kc.color)]) := by
          simp [ColorPacket.add, h14]
        have := ih sp (gp ++ [(g, kc.color)]) lp out cat hnm2
        simp only [set_key_colors_loop, hk, hadd, this]
        cases cat <;>
          simp [catSel, inputEntries, Key.toCat, List.filterMap_cons, hk]
    | Logo l =>
      by_cases h14 : lp.length = 14
      · have hadd : ColorPacket.add lp l kc.color = (some lp, [(l, kc.color)]) := by
          simp [ColorPacket.add, h14]
        have := ih sp gp [(l, kc.color)] (out ++ [CtrlMsg.colorMsg .Logo lp]) cat hnm2
        simp only [set_key_colors_loop, hk, hadd, this, entriesOfMsgs_append,
          entriesOfMsgs_colorMsg]
        cases cat <;>
          simp [catSel, inputEntries, Key.toCat, List.filterMap_cons, hk]
      · have hadd : ColorPacket.add lp l kc.color = (none, lp ++ [(l, kc.color)]) := by
          simp [ColorPacket.add, h14]
        have := ih sp gp (lp ++ [(l, kc.color)]) out cat hnm2
        simp only [set_key_colors_loop, hk, hadd, this]
        cases cat <;>
          simp [catSel, inputEntries, Key.toCat, List.filterMap_cons, hk]

/-- If a media key occurs anywhere in the input, the loop returns
`Err(InvalidParam)`. -/
theorem set_key_colors_loop_media (cs : List KeyColor) :
    ∀ sp gp lp out, containsMedia cs = true →
    (set_key_colors_loop cs sp gp lp out).2 = some UsbError.InvalidParam := by
  induction cs with
  | nil => intro sp gp lp out h; exact absurd h (by decide)
  | cons kc rest ih =>
    intro sp gp lp out h
    cases hk : kc.key with
    | Media m => simp [set_key_colors_loop, hk]
    | Standard s =>
      have h2 : containsMedia rest = true := by
        simp only [containsMedia, List.any_cons, Bool.or_eq_true, hk] at h
        rcases h with h | h
        · exact absurd h (by decide)
        · simpa [containsMedia] using h
      by_cases h14 : sp.length = 14
      · have hadd : ColorPacket.add sp s kc.color = (some sp, [(s, kc.color)]) := by
          simp [ColorPacket.add, h14]
        simp only [set_key_colors_loop, hk, hadd]
        exact ih _ _ _ _ h2
      · have hadd : ColorPacket.add sp s kc.color = (none, sp ++ [(s, kc.color)]) := by
          simp [ColorPacket.add, h14]
        simp only [set_key_colors_loop, hk, hadd]
        exact ih _ _ _ _ h2
    | Gaming g =>
      have h2 : containsMedia rest = true := by
        simp only [containsMedia, List.any_cons, Bool.or_eq_true, hk] at h
        rcases h with h | h
        · exact absurd h (by decide)
        · simpa [containsMedia] using h
      by_cases h14 : gp.length = 14
      · have hadd : ColorPacket.add gp g kc.color = (some gp, [(g, kc.color)]) := by
          simp [ColorPacket.add, h14]
        simp only [set_key_colors_loop, hk, hadd]
        exact ih _ _ _ _ h2
      · have hadd : ColorPacket.add gp g kc.color = (none, gp ++ [(g, kc.color)]) := by
          simp [ColorPacket.add, h14]
        simp only [set_key_colors_loop, hk, hadd]
        exact ih _ _ _ _ h2
    | Logo l =>
      have h2 : containsMedia rest = true := by
        simp only [containsMedia, List.any_cons, Bool.or_eq_true, hk] at h
        rcases h with h | h
        · exact absurd h (by decide)
        · simpa [containsMedia] using h
      by_cases h14 : lp.length = 14
      · have hadd : ColorPacket.add lp l kc.color = (some lp, [(l, kc.color)]) := by
          simp [ColorPacket.add, h14]
        simp only [set_key_colors_loop, hk, hadd]
        exact ih _ _ _ _ h2
      · have hadd : ColorPacket.add lp l kc.color = (none, lp ++ [(l, kc.color)]) := by
          simp [ColorPacket.add, h14]
        simp only [set_key_colors_loop, hk, hadd]
        exact ih _ _ _ _ h2

/-- The color used by the concrete examples. -/
def blue : Color := ⟨0, 0, 255⟩

/-- Input of claim C4's counterexample: fifteen Gaming keys followed by
one Standard key. -/
def cexColors : List KeyColor :=
  List.replicate 15 ⟨Key.Gaming 1, blue⟩ ++ [⟨Key.Standard 4, blue⟩]

/-- Claim C4 counterexample.  The claim requires all Standard batches to
be enqueued before all Gaming batches.  On fifteen Gaming entries plus
one Standard entry, the Gaming builder fills up mid-loop and its
14-entry batch is enqueued immediately — before the Standard batch that
is enqueued at the end of the loop — so a Gaming batch precedes a
Standard batch. -/
theorem set_key_colors_cross_category_cex :
    set_key_colors cexColors
      = ([CtrlMsg.colorMsg .Gaming (List.replicate 14 (1, blue)),
          CtrlMsg.colorMsg .Standard [(4, blue)],
          CtrlMsg.colorMsg .Gaming [(1, blue)],
          CtrlMsg.flushMsg], none) := by
  decide

/-- Input of the spec's split-by-category example: 20 Standard, 5 Gaming
and 1 Logo entry, listed by category. -/
def ex20 : List KeyColor :=
  (List.range 20).map (fun i => ⟨Key.Standard (4 + i), blue⟩)
  ++ (List.range 5).map (fun i => ⟨Key.Gaming (1 + i), blue⟩)
  ++ [⟨Key.Logo 1, blue⟩]

/-- Expected payload sequence for `ex20`: a 14-entry Standard batch, a
6-entry Standard batch, a 5-entry Gaming batch, a 1-entry Logo batch,
then the flush. -/
def ex20out : List CtrlMsg :=
  [CtrlMsg.colorMsg .Standard ((List.range 14).map fun i => (4 + i, blue)),
   CtrlMsg.colorMsg .Standard ((List.range 6).map fun i => (18 + i, blue)),
   CtrlMsg.colorMsg .Gaming ((List.range 5).map fun i => (1 + i, blue)),
   CtrlMsg.colorMsg .Logo [(1, blue)],
   CtrlMsg.flushMsg]

/-- Claim C4, amended: for every media-free input, `set_key_colors`
succeeds, enqueues exactly one `Flush` and enqueues it last, and the
batches of each category, concatenated in emission order, reproduce that
category's input entries in append order.  A full batch is enqueued the
moment its fifteenth entry arrives, so a batch of a later category can
precede a batch of an earlier one; remaining builders are enqueued
Standard, Gaming, Logo at the end.  The spec's concrete example —
20 Standard + 5 Gaming + 1 Logo, listed by category — yields exactly the
batches 14 Standard, 6 Standard, 5 Gaming, 1 Logo, then the flush. -/
theorem set_key_colors_batch_order :
    (∀ cs, noMedia cs = true →
      ∃ mids, set_key_colors cs = (mids ++ [CtrlMsg.flushMsg], none)
        ∧ (∀ m ∈ mids, m ≠ CtrlMsg.flushMsg)
        ∧ ∀ cat, entriesOfMsgs cat mids = inputEntries cat cs)
    ∧ set_key_colors ex20 = (ex20out, none) := by
  constructor
  · intro cs hnm
    obtain ⟨mids, heq, hmem⟩ := set_key_colors_loop_shape cs [] [] [] [] hnm
    refine ⟨mids, by simpa [set_key_colors] using heq, hmem, ?_⟩
    intro cat
    have h := set_key_colors_loop_entries cs [] [] [] [] cat hnm
    rw [heq] at h
    simp only [List.nil_append, entriesOfMsgs_append, entriesOfMsgs_flush,
      List.append_nil] at h
    have hsel : catSel cat [] [] [] = [] := by cases cat <;> rfl
    have hout : entriesOfMsgs cat ([] : List CtrlMsg) = [] := rfl
    rw [hsel, hout] at h
    simpa using h
  · decide

/-- Witness for the amended C4 at the spec's concrete input. -/
theorem set_key_colors_batch_order_witness :
    noMedia ex20 = true
    ∧ (∃ mids, set_key_colors ex20 = (mids ++ [CtrlMsg.flushMsg], none)
        ∧ (∀ m ∈ mids, m ≠ CtrlMsg.flushMsg)
        ∧ ∀ cat, entriesOfMsgs cat mids = inputEntries cat ex20) :=
  ⟨by decide, set_key_colors_batch_order.1 ex20 (by decide)⟩

/-- Claim C8: any input containing a media key makes `set_key_colors`
fail with `InvalidParam` (the error the spec calls `InvalidTarget`); in
particular a singleton media input fails and enqueues nothing. -/
theorem set_key_colors_media_rejected :
    (∀ cs, containsMedia cs = true → (set_key_colors cs).2 = some UsbError.InvalidParam)
    ∧ ∀ x c, set_key_colors [⟨Key.Media x, c⟩] = ([], some UsbError.InvalidParam) := by
  constructor
  · intro cs h
    exact set_key_colors_loop_media cs [] [] [] [] h
  · intro x c
    rfl

/-- Witness for C8 at a concrete media key. -/
theorem set_key_colors_media_rejected_witness :
    containsMedia [⟨Key.Media 5, blue⟩] = true
    ∧ (set_key_colors [⟨Key.Media 5, blue⟩]).2 = some UsbError.InvalidParam :=
  ⟨by decide, set_key_colors_media_rejected.1 [⟨Key.Media 5, blue⟩] (by decide)⟩

/-- The bytes for which `StandardKey::from(u8)` in `src/keys.rs` yields a
key other than `None`: the contiguous blocks `0x04..=0x65`,
`0x87..=0x8b` (international keys) and `0xe0..=0xe7` (modifiers). -/
def StandardKey.isKnown (b : Nat) : Bool :=
  decide ((0x04 ≤ b ∧ b ≤ 0x65) ∨ (0x87 ≤ b ∧ b ≤ 0x8b) ∨ (0xe0 ≤ b ∧ b ≤ 0xe7))

/-- The modifier bitmap of byte 0 of a standard report
(`src/parser.rs` lines 101-124): bit mask paired with the wire byte of
the corresponding modifier key from `src/keys.rs`. -/
def modifierBits : List (Nat × Nat) :=
  [(0x01, 0xe0), (0x02, 0xe1), (0x04, 0xe2), (0x08, 0xe3),
   (0x10, 0xe4), (0x20, 0xe5), (0x40, 0xe6), (0x80, 0xe7)]

/-- `HashSet::insert`: append the key unless already present. -/
def insertKey (l : List Key) (k : Key) : List Key :=
  if k ∈ l then l else l ++ [k]

/-- A `HashSet<Key>` built by inserting the given keys in order,
represented as a duplicate-free list. -/
def buildState (ks : List Key) : List Key := ks.foldl insertKey []

/-- `HashSet::difference`: the elements of `a` not in `b`. -/
def setDiff (a b : List Key) : List Key := a.filter fun k => decide (¬ k ∈ b)

/-- `src/parser.rs` `KeyParser`: one pressed-set per input stream. -/
structure KeyParser where
  pressed_keys : List Key
  pressed_rollover_keys : List Key
  pressed_media_keys : List Key
deriving DecidableEq, Repr

/-- `KeyParser::new`: all three pressed-sets empty. -/
def KeyParser.new : KeyParser := ⟨[], [], []⟩

/-- The new pressed-set `state` computed by `KeyParser::parse` for a
packet: media bitmap matches (`buf[1] & k == k` over the media key
codes, which are not part of the snapshot and are passed as a
parameter), then the known standard-key codes of `buf[1..]` for the
standard and rollover streams, then the modifier bitmap of `buf[0]` for
the standard stream. -/
def KeyParser.newState (mediaCodes : List Nat) (p : Packet) : List Key :=
  buildState
    ((if p.endpoint == 2 && p.buf.getD 0 0 == 2 then
        (mediaCodes.filter fun k => p.buf.getD 1 0 &&& k == k).map Key.Media
      else [])
    ++ (if p.endpoint == 1 || (p.endpoint == 2 && p.buf.getD 0 0 == 1) then
        ((p.buf.drop 1).filter StandardKey.isKnown).map Key.Standard
      else [])
    ++ (if p.endpoint == 1 then
        (modifierBits.filter fun bk => p.buf.getD 0 0 &&& bk.1 == bk.1).map
          fun bk => Key.Standard bk.2
      else []))

/-- `src/parser.rs` `KeyParser::parse`: select the stream's old
pressed-set, emit `KeyPressed` for `state \ old` then `KeyReleased` for
`old \ state`, and store `state` as the stream's new pressed-set.  The
`unreachable!()` branch (a packet of none of the three shapes) is
`none`. -/
def KeyParser.parse (mediaCodes : List Nat) (p : Packet) (kp : KeyParser) :
    Option (List KeyEvent × KeyParser) :=
  let state := KeyParser.newState mediaCodes p
  if p.endpoint == 1 then
    some ((setDiff state kp.pressed_keys).map KeyEvent.KeyPressed
        ++ (setDiff kp.pressed_keys state).map KeyEvent.KeyReleased,
      { kp with pressed_keys := state })
  else if p.endpoint == 2 && p.buf.getD 0 0 == 1 then
    some ((setDiff state kp.pressed_rollover_keys).map KeyEvent.KeyPressed
        ++ (setDiff kp.pressed_rollover_keys state).map KeyEvent.KeyReleased,
      { kp with pressed_rollover_keys := state })
  else if p.endpoint == 2 && p.buf.getD 0 0 == 2 then
    some ((setDiff state kp.pressed_media_keys).map KeyEvent.KeyPressed
        ++ (setDiff kp.pressed_media_keys state).map KeyEvent.KeyReleased,
      { kp with pressed_media_keys := state })
  else none

/-- The pressed-set of the stream a packet belongs to. -/
def KeyParser.streamSet (p : Packet) (kp : KeyParser) : List Key :=
  if p.endpoint == 1 then kp.pressed_keys
  else if p.endpoint == 2 && p.buf.getD 0 0 == 1 then kp.pressed_rollover_keys
  else kp.pressed_media_keys

theorem insertKey_nodup (l : List Key) (k : Key) (h : l.Nodup) : (insertKey l k).Nodup := by
  unfold insertKey
  split
  · exact h
  · next hk => simpa [List.nodup_append] using ⟨h, hk⟩

theorem buildState_nodup (ks : List Key) : (buildState ks).Nodup := by
  have haux : ∀ (l : List Key) (acc : List Key), acc.Nodup → (l.foldl insertKey acc).Nodup := by
    intro l
    induction l with
    | nil => intro acc h; exact h
    | cons k rest ih => intro acc h; exact ih _ (insertKey_nodup acc k h)
  exact haux ks [] List.nodup_nil

theorem mem_setDiff (a b : List Key) (k : Key) : k ∈ setDiff a b ↔ k ∈ a ∧ k ∉ b := by
  simp [setDiff]

theorem setDiff_nodup (a b : List Key) (h : a.Nodup) : (setDiff a b).Nodup :=
  h.filter _

theorem count_setDiff (a b : List Key) (h : a.Nodup) (k : Key) :
    (setDiff a b).count k = if k ∈ a ∧ k ∉ b then 1 else 0 := by
  rw [List.count_eq_of_nodup (setDiff_nodup a b h)]
  simp only [mem_setDiff]

theorem count_pressed_events (a b : List Key) (k : Key) :
    (a.map KeyEvent.KeyPressed ++ b.map KeyEvent.KeyReleased).count (KeyEvent.KeyPressed k)
      = a.count k := by
  rw [List.count_append,
    List.count_map_of_injective a KeyEvent.KeyPressed (fun x y hxy => by injection hxy)]
  have h0 : (b.map KeyEvent.KeyReleased).count (KeyEvent.KeyPressed k) = 0 := by
    rw [List.count_eq_zero]
    simp
  omega

theorem count_released_events (a b : List Key) (k : Key) :
    (a.map KeyEvent.KeyPressed ++ b.map KeyEvent.KeyReleased).count (KeyEvent.KeyReleased k)
      = b.count k := by
  rw [List.count_append,
    List.count_map_of_injective b KeyEvent.KeyReleased (fun x y hxy => by injection hxy)]
  have h0 : (a.map KeyEvent.KeyPressed).count (KeyEvent.KeyReleased k) = 0 := by
    rw [List.count_eq_zero]
    simp
  omega

theorem newState_nodup (mediaCodes : List Nat) (p : Packet) :
    (KeyParser.newState mediaCodes p).Nodup :=
  buildState_nodup _

/-- The diff events of one stream: counts of `KeyPressed`/`KeyReleased`
match membership in `N \ P` and `P \ N`, and all `KeyPressed` events
precede all `KeyReleased` events. -/
theorem diffEvents_spec (N P : List Key) (hN : N.Nodup) (hP : P.Nodup) :
    (∀ k, ((setDiff N P).map KeyEvent.KeyPressed
        ++ (setDiff P N).map KeyEvent.KeyReleased).count (KeyEvent.KeyPressed k)
        = if k ∈ N ∧ k ∉ P then 1 else 0)
    ∧ (∀ k, ((setDiff N P).map KeyEvent.KeyPressed
        ++ (setDiff P N).map KeyEvent.KeyReleased).count (KeyEvent.KeyReleased k)
        = if k ∈ P ∧ k ∉ N then 1 else 0)
    ∧ (∃ l1 l2, (setDiff N P).map KeyEvent.KeyPressed
          ++ (setDiff P N).map KeyEvent.KeyReleased = l1 ++ l2
        ∧ (∀ e ∈ l1, ∃ k, e = KeyEvent.KeyPressed k)
        ∧ ∀ e ∈ l2, ∃ k, e = KeyEvent.KeyReleased k) := by
  refine ⟨?_, ?_, ?_⟩
  · intro k
    rw [count_pressed_events, count_setDiff N P hN]
  · intro k
    rw [count_released_events, count_setDiff P N hP]
  · refine ⟨(setDiff N P).map KeyEvent.KeyPressed, (setDiff P N).map KeyEvent.KeyReleased,
      rfl, ?_, ?_⟩
    · intro e he
      obtain ⟨k, _, rfl⟩ := List.mem_map.mp he
      exact ⟨k, rfl⟩
    · intro e he
      obtain ⟨k, _, rfl⟩ := List.mem_map.mp he
      exact ⟨k, rfl⟩

/-- Claim C7: on every accepted key packet (given duplicate-free
pressed-sets, as every reachable parser state has), `parse` succeeds,
emits exactly one `KeyPressed k` for each `k` newly in the stream's set
and exactly one `KeyReleased k` for each `k` that left it, with every
`KeyPressed` before every `KeyReleased`; it replaces that stream's
pressed-set with the new set and leaves the other two streams' sets
unchanged (and keeps all three sets duplicate-free). -/
theorem keyparser_parse_diff (mediaCodes : List Nat) (p : Packet) (kp : KeyParser)
    (hacc : KeyParser.accept p = true)
    (hnd : kp.pressed_keys.Nodup ∧ kp.pressed_rollover_keys.Nodup
        ∧ kp.pressed_media_keys.Nodup) :
    ∃ evs kp2, KeyParser.parse mediaCodes p kp = some (evs, kp2)
    ∧ (∀ k, evs.count (KeyEvent.KeyPressed k)
        = if k ∈ KeyParser.newState mediaCodes p ∧ k ∉ KeyParser.streamSet p kp
          then 1 else 0)
    ∧ (∀ k, evs.count (KeyEvent.KeyReleased k)
        = if k ∈ KeyParser.streamSet p kp ∧ k ∉ KeyParser.newState mediaCodes p
          then 1 else 0)
    ∧ (∃ l1 l2, evs = l1 ++ l2 ∧ (∀ e ∈ l1, ∃ k, e = KeyEvent.KeyPressed k)
        ∧ ∀ e ∈ l2, ∃ k, e = KeyEvent.KeyReleased k)
    ∧ KeyParser.streamSet p kp2 = KeyParser.newState mediaCodes p
    ∧ (p.endpoint = 1 → kp2.pressed_rollover_keys = kp.pressed_rollover_keys
        ∧ kp2.pressed_media_keys = kp.pressed_media_keys)
    ∧ (p.endpoint = 2 ∧ p.buf.getD 0 0 = 1 → kp2.pressed_keys = kp.pressed_keys
        ∧ kp2.pressed_media_keys = kp.pressed_media_keys)
    ∧ (p.endpoint = 2 ∧ p.buf.getD 0 0 = 2 → kp2.pressed_keys = kp.pressed_keys
        ∧ kp2.pressed_rollover_keys = kp.pressed_rollover_keys)
    ∧ kp2.pressed_keys.Nodup ∧ kp2.pressed_rollover_keys.Nodup
    ∧ kp2.pressed_media_keys.Nodup := by
  obtain ⟨hnd1, hnd2, hnd3⟩ := hnd
  rcases p with ⟨ep, buf⟩
  simp only [KeyParser.accept, Bool.or_eq_true, Bool.and_eq_true, beq_iff_eq] at hacc
  rcases hacc with (⟨⟨hlen, hep⟩, hb1⟩ | ⟨⟨hlen, hep⟩, hb0⟩) | ⟨⟨hlen, hep⟩, hb0⟩
  · subst hep
    obtain ⟨hc1, hc2, hord⟩ :=
      diffEvents_spec (KeyParser.newState mediaCodes ⟨1, buf⟩) kp.pressed_keys
        (newState_nodup mediaCodes ⟨1, buf⟩) hnd1
    refine ⟨_, _, rfl, ?_, ?_, hord, rfl, fun _ => ⟨rfl, rfl⟩, ?_, ?_,
      newState_nodup mediaCodes ⟨1, buf⟩, hnd2, hnd3⟩
    · exact hc1
    · exact hc2
    · rintro ⟨h2, _⟩
      simp at h2
    · rintro ⟨h2, _⟩
      simp at h2
  · subst hep
    cases buf with
    | nil => simp at hlen
    | cons b0 rest =>
      have hb0v : b0 = 1 := by simpa using hb0
      subst hb0v
      obtain ⟨hc1, hc2, hord⟩ :=
        diffEvents_spec (KeyParser.newState mediaCodes ⟨2, 1 :: rest⟩) kp.pressed_rollover_keys
          (newState_nodup mediaCodes ⟨2, 1 :: rest⟩) hnd2
      refine ⟨_, _, rfl, ?_, ?_, hord, rfl, ?_, fun _ => ⟨rfl, rfl⟩, ?_,
        hnd1, newState_nodup mediaCodes ⟨2, 1 :: rest⟩, hnd3⟩
      · exact hc1
      · exact hc2
      · intro h1
        simp at h1
      · rintro ⟨_, h2⟩
        simp at h2
  · subst hep
    cases buf with
    | nil => simp at hlen
    | cons b0 rest =>
      have hb0v : b0 = 2 := by simpa using hb0
      subst hb0v
      obtain ⟨hc1, hc2, hord⟩ :=
        diffEvents_spec (KeyParser.newState mediaCodes ⟨2, 2 :: rest⟩) kp.pressed_media_keys
          (newState_nodup mediaCodes ⟨2, 2 :: rest⟩) hnd3
      refine ⟨_, _, rfl, ?_, ?_, hord, rfl, ?_, ?_, fun _ => ⟨rfl, rfl⟩,
        hnd1, hnd2, newState_nodup mediaCodes ⟨2, 2 :: rest⟩⟩
      · exact hc1
      · exact hc2
      · intro h1
        simp at h1
      · rintro ⟨_, h2⟩
        simp at h2

/-- Witness for C7: a standard report with LeftShift held and key `A`
(code 4) pressed, against a parser that currently believes `B` (code 5)
is held. -/
theorem keyparser_parse_diff_witness :
    KeyParser.accept ⟨1, [2, 0, 4, 0, 0, 0, 0, 0]⟩ = true
    ∧ ([Key.Standard 5] : List Key).Nodup
    ∧ (∃ evs kp2, KeyParser.parse [1, 2, 4] ⟨1, [2, 0, 4, 0, 0, 0, 0, 0]⟩
          ⟨[Key.Standard 5], [], []⟩ = some (evs, kp2)
      ∧ (∀ k, evs.count (KeyEvent.KeyPressed k)
          = if k ∈ KeyParser.newState [1, 2, 4] ⟨1, [2, 0, 4, 0, 0, 0, 0, 0]⟩
              ∧ k ∉ KeyParser.streamSet ⟨1, [2, 0, 4, 0, 0, 0, 0, 0]⟩
                  ⟨[Key.Standard 5], [], []⟩
            then 1 else 0)
      ∧ (∀ k, evs.count (KeyEvent.KeyReleased k)
          = if k ∈ KeyParser.streamSet ⟨1, [2, 0, 4, 0, 0, 0, 0, 0]⟩
                ⟨[Key.Standard 5], [], []⟩
              ∧ k ∉ KeyParser.newState [1, 2, 4] ⟨1, [2, 0, 4, 0, 0, 0, 0, 0]⟩
            then 1 else 0)
      ∧ (∃ l1 l2, evs = l1 ++ l2 ∧ (∀ e ∈ l1, ∃ k, e = KeyEvent.KeyPressed k)
          ∧ ∀ e ∈ l2, ∃ k, e = KeyEvent.KeyReleased k)
      ∧ KeyParser.streamSet ⟨1, [2, 0, 4, 0, 0, 0, 0, 0]⟩ kp2
          = KeyParser.newState [1, 2, 4] ⟨1, [2, 0, 4, 0, 0, 0, 0, 0]⟩
      ∧ ((1 : Nat) = 1 → kp2.pressed_rollover_keys = ([] : List Key)
          ∧ kp2.pressed_media_keys = ([] : List Key))
      ∧ ((1 : Nat) = 2 ∧ ([2, 0, 4, 0, 0, 0, 0, 0] : List Nat).getD 0 0 = 1 →
          kp2.pressed_keys = [Key.Standard 5] ∧ kp2.pressed_media_keys = ([] : List Key))
      ∧ ((1 : Nat) = 2 ∧ ([2, 0, 4, 0, 0, 0, 0, 0] : List Nat).getD 0 0 = 2 →
          kp2.pressed_keys = [Key.Standard 5]
          ∧ kp2.pressed_rollover_keys = ([] : List Key))
      ∧ kp2.pressed_keys.Nodup ∧ kp2.pressed_rollover_keys.Nodup
      ∧ kp2.pressed_media_keys.Nodup) :=
  ⟨rfl, by decide,
   keyparser_parse_diff [1, 2, 4] ⟨1, [2, 0, 4, 0, 0, 0, 0, 0]⟩ ⟨[Key.Standard 5], [], []⟩
     (by decide) ⟨by decide, by decide, by decide⟩⟩

/-- A registered handler as the dispatch loop sees it: the id under
which `KeyboardImpl::add_handler` stored it (`handler_index` at
registration time) and its `accept_key` predicate; an invocation of
`handle_key` is recorded by the handler's id. -/
structure MHandler where
  id : Nat
  accept_key : KeyEvent → Bool

/-- The fan-out of one `KeyEvent` in `KeyboardImpl::handle`: the
handlers are traversed in the iteration order of the
`HashMap<u32, Box<GenericHandler>>` — an unspecified permutation of the
registered handlers, passed here as `order` — and `handle_key` is
invoked on each whose `accept_key` returns true.  Returns the invoked
ids in invocation order. -/
def dispatchKeyEvent (order : List MHandler) (e : KeyEvent) : List Nat :=
  (order.filter fun h => h.accept_key e).map MHandler.id

/-- The `init` fan-out of `KeyboardImpl::start_handle_loop`: `init` is
called once per handler, in the map's iteration order. -/
def initCalls (order : List MHandler) : List Nat :=
  order.map MHandler.id

/-- First registered handler of the concrete dispatch examples; accepts
every event. -/
def mh0 : MHandler := ⟨0, fun _ => true⟩

/-- Second registered handler of the concrete dispatch examples; accepts
every event. -/
def mh1 : MHandler := ⟨1, fun _ => true⟩

/-- A concrete key event. -/
def evA : KeyEvent := KeyEvent.KeyPressed (Key.Standard 4)

/-- Claim C3 counterexample.  The handlers live in a Rust
`HashMap<u32, _>` and both dispatch and init iterate that map, whose
iteration order is unspecified (std's `HashMap` is randomized), not the
registration order.  The enumeration `[mh1, mh0]` is a permutation of
the registered handlers `[mh0, mh1]` — hence a possible map iteration —
yet it consults handler 1 before handler 0 and likewise inits them out
of registration order. -/
theorem handler_dispatch_order_cex :
    List.Perm [mh1, mh0] [mh0, mh1]
    ∧ dispatchKeyEvent [mh1, mh0] evA ≠ [0, 1]
    ∧ initCalls [mh1, mh0] ≠ [0, 1] :=
  ⟨List.Perm.swap mh0 mh1 [], by decide, by decide⟩

/-- Claim C3, amended: for every map iteration order (any permutation of
the registered handlers, whose ids are distinct since `handler_index`
increments at each registration), each handler accepting the event is
invoked exactly once (the invoked ids are duplicate-free and contain
precisely the accepting registered handlers), and `init` is called
exactly once per registered handler before the loop — but in the map's
unspecified iteration order, not necessarily registration order. -/
theorem handler_dispatch_complete (order hs : List MHandler) (e : KeyEvent)
    (hperm : order.Perm hs) (hnd : (hs.map MHandler.id).Nodup) :
    (dispatchKeyEvent order e).Nodup
    ∧ (∀ h ∈ hs, h.accept_key e = true → h.id ∈ dispatchKeyEvent order e)
    ∧ (∀ i ∈ dispatchKeyEvent order e, ∃ h ∈ hs, h.id = i ∧ h.accept_key e = true)
    ∧ (initCalls order).Perm (hs.map MHandler.id) := by
  have hordnd : (order.map MHandler.id).Nodup :=
    ((hperm.map MHandler.id).nodup_iff).mpr hnd
  refine ⟨?_, ?_, ?_, hperm.map MHandler.id⟩
  · exact hordnd.sublist ((List.filter_sublist order).map MHandler.id)
  · intro h hh hacc
    exact List.mem_map.mpr ⟨h, List.mem_filter.mpr ⟨hperm.mem_iff.mpr hh, hacc⟩, rfl⟩
  · intro i hi
    obtain ⟨h, hfil, rfl⟩ := List.mem_map.mp hi
    obtain ⟨hmem, hacc⟩ := List.mem_filter.mp hfil
    exact ⟨h, hperm.mem_iff.mp hmem, rfl, hacc⟩

/-- Witness for the amended C3 with two concrete handlers enumerated in
reverse registration order. -/
theorem handler_dispatch_complete_witness :
    List.Perm [mh1, mh0] [mh0, mh1]
    ∧ ([mh0, mh1].map MHandler.id).Nodup
    ∧ ((dispatchKeyEvent [mh1, mh0] evA).Nodup
      ∧ (∀ h ∈ [mh0, mh1], h.accept_key evA = true →
          h.id ∈ dispatchKeyEvent [mh1, mh0] evA)
      ∧ (∀ i ∈ dispatchKeyEvent [mh1, mh0] evA,
          ∃ h ∈ [mh0, mh1], h.id = i ∧ h.accept_key evA = true)
      ∧ (initCalls [mh1, mh0]).Perm ([mh0, mh1].map MHandler.id)) :=
  ⟨List.Perm.swap mh0 mh1 [], by decide,
   handler_dispatch_complete [mh1, mh0] [mh0, mh1] evA (List.Perm.swap mh0 mh1 [])
     (by decide)⟩

/-- An observable call made by `src/utils.rs` on the libusb device
handle. -/
inductive UsbAction
  | releaseInterface (iface : Nat)
  | attachKernelDriver (iface : Nat)
  | detachKernelDriver (iface : Nat)
  | claimInterface (iface : Nat)
  | resetDevice
deriving DecidableEq, Repr

/-- `src/utils.rs` `detach`: if a kernel driver is active on the
interface, detach it and report `true`; otherwise do nothing and report
`false`. -/
def detach (active : Bool) (iface : Nat) : List UsbAction × Bool :=
  if active then ([.detachKernelDriver iface], true) else ([], false)

/-- `src/utils.rs` `get_handle`, given which interfaces have an active
kernel driver: detach both, claim interfaces 0 and 1, reset; returns the
actions and the two remembered `has_kernel_driver` flags. -/
def get_handle (active0 active1 : Bool) : List UsbAction × Bool × Bool :=
  ((detach active0 0).1 ++ (detach active1 1).1
    ++ [.claimInterface 0, .claimInterface 1, .resetDevice],
   (detach active0 0).2, (detach active1 1).2)

/-- `src/utils.rs` `impl Drop for UsbWrapper`: release interfaces 1 and
0, then reattach the kernel driver on each interface whose flag was
remembered at acquire time. -/
def drop_usb_wrapper (has_kernel_driver0 has_kernel_driver1 : Bool) : List UsbAction :=
  [.releaseInterface 1, .releaseInterface 0]
  ++ (if has_kernel_driver1 then [.attachKernelDriver 1] else [])
  ++ (if has_kernel_driver0 then [.attachKernelDriver 0] else [])

/-- Claim C9: whatever the kernel-driver state at acquire time, dropping
the wrapper releases both claimed interfaces, and reattaches the kernel
driver on interface `i` exactly when one was attached on `i` at acquire
time (in particular, attached on 0 only means reattach on 0 and not
on 1). -/
theorem usb_wrapper_drop_reattach (active0 active1 : Bool) :
    UsbAction.releaseInterface 0
        ∈ drop_usb_wrapper (get_handle active0 active1).2.1 (get_handle active0 active1).2.2
    ∧ UsbAction.releaseInterface 1
        ∈ drop_usb_wrapper (get_handle active0 active1).2.1 (get_handle active0 active1).2.2
    ∧ (UsbAction.attachKernelDriver 0
        ∈ drop_usb_wrapper (get_handle active0 active1).2.1 (get_handle active0 active1).2.2
        ↔ active0 = true)
    ∧ (UsbAction.attachKernelDriver 1
        ∈ drop_usb_wrapper (get_handle active0 active1).2.1 (get_handle active0 active1).2.2
        ↔ active1 = true) := by
  cases active0 <;> cases active1 <;> decide
